import Mathlib

/-!
Verification of the reminder scheduler, time-expression parser and trigger
service of the `claude-alwaysrunning` repository.

The JavaScript sources are shallowly embedded:

* `src/src/scheduler/parser.js` — `parseTime`, `parseCronPattern`,
  `parseRelativeTime`, `parseReminderTime`, `isValidCron`, `formatTime`,
  `capitalize`.  Strings are `List Char`/`String`; the regular expressions
  of the source are translated into deterministic scanners that decide the
  same languages (the concrete regexes never need backtracking beyond the
  greedy choice, as argued at each definition).  The `chrono-node` library
  is external: a `chrono.parse` outcome is passed in as an explicit list of
  `ChronoResult` values.
* the `MemoryStore` reminder table — reminders are a list of records, the
  SQL `UPDATE ... WHERE id = ?` statements become maps over the list.
* `SchedulerManager` (`manager.js`) — explicit state passing; a thrown
  exception is an `Except.error` paired with the unchanged state.
* `TriggerService` (`src/src/triggers/trigger-service.js`) — jobs are a
  list of records in registration order; `setInterval` timers are an
  `armed : Bool` flag; a handler execution's outcome (the handler is an
  external callback) is passed in as a `JOutcome` value.

Clock reads (`new Date()`, `Date.now()`) are explicit `Int` millisecond
parameters.  JavaScript `Date` instants are epoch milliseconds; where the
source stores `date.toISOString()` we store the instant itself (the
null/non-null structure, which the claims are about, is identical).
-/

/-! ## Character and scanning utilities -/

/-- Value of a decimal digit character. -/
def dval (c : Char) : Nat := c.toNat - 48

/-- `parseInt` on a string of decimal digits. -/
def digitsVal (ds : List Char) : Nat := ds.foldl (fun a c => a * 10 + dval c) 0

/-- Strip an expected literal word from the front of the input, returning the
rest; `none` if the input does not start with the word.  Used to embed a
literal in a regular expression. -/
def stripChars : List Char → List Char → Option (List Char)
  | [], l => some l
  | w :: ws, c :: cs => if c = w then stripChars ws cs else none
  | _ :: _, [] => none

/-- `\s+` : require at least one whitespace character, consume the whole run. -/
def ws1 (l : List Char) : Option (List Char) :=
  match l with
  | c :: cs => if c.isWhitespace then some (cs.dropWhile Char.isWhitespace) else none
  | [] => none

/-- `(\d+)` : require at least one digit, return the digit run and the rest. -/
def digits1 (l : List Char) : Option (List Char × List Char) :=
  let ds := l.takeWhile Char.isDigit
  if ds.isEmpty then none else some (ds, l.dropWhile Char.isDigit)

/-- JavaScript `String.prototype.toLowerCase` on the ASCII inputs handled by
the parser. -/
def jsLower (l : List Char) : List Char := l.map Char.toLower

/-! ## `isValidCron` (parser.js lines 226-239)

```
function isValidCron(expression) {
  const parts = expression.trim().split(/\s+/);
  if (parts.length !== 5) return false;
  const patterns = [ /^(\*|(\d+|\*)(\/\d+)?|(\d+(-\d+)?)(,\d+(-\d+)?)*)$/, ... ];
  return parts.every((part, i) => patterns[i].test(part));
}
```

All five field patterns are the same regex.  `trim` + `split(/\s+/)` on a
string containing a non-whitespace character yields the maximal runs of
non-whitespace characters (on an all-whitespace string JavaScript yields
`[""]` and ours `[]`; both fail the length-5 test). -/

/-- `trim().split(/\s+/)` : the maximal runs of non-whitespace characters. -/
def wsSplitAux : List Char → List Char → List (List Char)
  | acc, [] => if acc.isEmpty then [] else [acc.reverse]
  | acc, c :: cs =>
    if c.isWhitespace then
      if acc.isEmpty then wsSplitAux [] cs else acc.reverse :: wsSplitAux [] cs
    else wsSplitAux (c :: acc) cs

def wsSplit (l : List Char) : List (List Char) := wsSplitAux [] l

/-- JavaScript `String.prototype.split(',')`. -/
def splitComma : List Char → List (List Char)
  | [] => [[]]
  | c :: cs =>
    if c = ',' then [] :: splitComma cs
    else
      match splitComma cs with
      | [] => [[c]]
      | h :: t => (c :: h) :: t

/-- `\d+` covering the whole component. -/
def isNumB (l : List Char) : Bool := !l.isEmpty && l.all Char.isDigit

/-- `\d+(-\d+)?` covering one comma-component.  The regex is deterministic
here: `\d+` is greedy and a shorter digit run would leave a digit where `-`
or the end is required; so the component is a digit run followed by nothing
or by `-` and a number. -/
def rangeOK (l : List Char) : Bool :=
  let ds := l.takeWhile Char.isDigit
  let rest := l.dropWhile Char.isDigit
  !ds.isEmpty &&
    (match rest with
     | [] => true
     | c :: d2 => c = '-' && isNumB d2)

/-- Alternative `(\d+(-\d+)?)(,\d+(-\d+)?)*` of the field regex: every
comma-component (components of this alternative never contain a comma) is a
number or a numeric range. -/
def listOK (l : List Char) : Bool := (splitComma l).all rangeOK

/-- Alternative `(\d+|\*)(\/\d+)?` of the field regex: a base that is `*` or
a digit run (greedy, deterministic as in `rangeOK`), then nothing or `/` and
a number. -/
def stepOK (l : List Char) : Bool :=
  match l with
  | [] => false
  | c :: rest =>
    if c = '*' then
      match rest with
      | [] => true
      | c2 :: ds => c2 = '/' && isNumB ds
    else
      let ds := (c :: rest).takeWhile Char.isDigit
      let r2 := (c :: rest).dropWhile Char.isDigit
      !ds.isEmpty &&
        (match r2 with
         | [] => true
         | c2 :: d2 => c2 = '/' && isNumB d2)

/-- The anchored field regex `^(\*|(\d+|\*)(\/\d+)?|(\d+(-\d+)?)(,\d+(-\d+)?)*)$`. -/
def fieldOK (l : List Char) : Bool :=
  l = ['*'] || stepOK l || listOK l

/-- `isValidCron` from parser.js. -/
def isValidCron (expression : String) : Bool :=
  let parts := wsSplit expression.toList
  parts.length = 5 && parts.all fieldOK

example : isValidCron "* * * * *" = true := by decide
example : isValidCron "*/5 0 1,2-3 * 99" = true := by decide
example : isValidCron "* * *" = false := by decide
example : isValidCron "5/2 * * * *" = true := by decide
example : isValidCron "1-2-3 * * * *" = false := by decide
example : isValidCron "1, * * * *" = false := by decide

/-! ## The spec's cron field grammar

The claim describes each field as "`*`, a number, a step of the form `*/N`,
or a comma-separated list of numbers and numeric ranges".  The following
definitions follow those words (not the source), so that the source's
`isValidCron` can be compared against them. -/

/-- A number: a non-empty string of decimal digits. -/
def SpecNum (l : List Char) : Prop := l ≠ [] ∧ ∀ c ∈ l, c.isDigit = true

/-- A number or a numeric range `a-b`. -/
def SpecRange (l : List Char) : Prop :=
  SpecNum l ∨ ∃ a b, SpecNum a ∧ SpecNum b ∧ l = a ++ '-' :: b

/-- Join components with commas. -/
def joinComma : List (List Char) → List Char
  | [] => []
  | [x] => x
  | x :: xs => x ++ ',' :: joinComma xs

/-- A comma-separated list of numbers and numeric ranges. -/
def SpecCommaList (l : List Char) : Prop :=
  ∃ cs, cs ≠ [] ∧ (∀ f ∈ cs, SpecRange f) ∧ l = joinComma cs

/-- The claim's field grammar: `*`, a number, a step `*/N`, or a comma list. -/
def ClaimField (l : List Char) : Prop :=
  l = ['*'] ∨ SpecNum l ∨ (∃ n, SpecNum n ∧ l = '*' :: '/' :: n) ∨ SpecCommaList l

/-- The amended field grammar: the claim's, plus steps with a numeric base
(`N/M`), which the source regex `(\d+|\*)(\/\d+)?` also accepts. -/
def AmendedField (l : List Char) : Prop :=
  ClaimField l ∨ ∃ m n, SpecNum m ∧ SpecNum n ∧ l = m ++ '/' :: n

/-! ## `parseCronPattern` (parser.js lines 56-147)

The five recurring patterns, in source order:
1. `every\s+(\d+)\s+(minute|hour)s?`
2. `every\s+hour`
3. `every\s+day\s+at\s+(\d{1,2})(?::(\d{2}))?\s*(am|pm)?`
4. `every\s+weekday\s+at\s+…` (same time tail)
5. for each entry of `dayMap` in insertion order, `every\s+<name>\s+at\s+…`.

`String.prototype.match` finds the leftmost match; each of these patterns is
deterministic (the greedy choices never need to backtrack: after `\d{1,2}`
only optional groups follow, and each optional group fails by looking at one
character that the following groups cannot consume).  The trailing `s?` of
pattern 1 only extends `match[0]`, never the captures, so it is dropped. -/

/-- `{cron, description}` object returned by `parseCronPattern`. -/
structure CronResult where
  cron : String
  description : String
deriving DecidableEq

/-- `formatTime` from parser.js (lines 207-212). -/
def formatTime (hour minute : Nat) : String :=
  let ampm := if hour ≥ 12 then "PM" else "AM"
  let displayHour := if hour % 12 = 0 then 12 else hour % 12
  let displayMinute := if minute < 10 then "0" ++ toString minute else toString minute
  toString displayHour ++ ":" ++ displayMinute ++ " " ++ ampm

/-- `capitalize` from parser.js (lines 217-219). -/
def capitalize (s : String) : String :=
  match s.toList with
  | [] => s
  | c :: cs => String.mk (c.toUpper :: cs)

inductive MHUnit where
  | minute
  | hour
deriving DecidableEq

/-- Try pattern 1 at the current position. -/
def matchEveryNumAt (l : List Char) : Option (Nat × MHUnit) := do
  let r1 ← stripChars "every".toList l
  let r2 ← ws1 r1
  let (ds, r3) ← digits1 r2
  let r4 ← ws1 r3
  match stripChars "minute".toList r4 with
  | some _ => some (digitsVal ds, MHUnit.minute)
  | none =>
    match stripChars "hour".toList r4 with
    | some _ => some (digitsVal ds, MHUnit.hour)
    | none => none

/-- Leftmost match of pattern 1. -/
def searchEveryNum : List Char → Option (Nat × MHUnit)
  | [] => none
  | c :: cs =>
    match matchEveryNumAt (c :: cs) with
    | some r => some r
    | none => searchEveryNum cs

/-- Try `every\s+hour` at the current position. -/
def matchEveryHourAt (l : List Char) : Bool :=
  (do
    let r1 ← stripChars "every".toList l
    let r2 ← ws1 r1
    let _ ← stripChars "hour".toList r2
    some ()).isSome

/-- `/every\s+hour/.test(lowerText)`. -/
def hasEveryHour : List Char → Bool
  | [] => false
  | c :: cs => matchEveryHourAt (c :: cs) || hasEveryHour cs

inductive AmPm where
  | am
  | pm
deriving DecidableEq

/-- `(\d{1,2})` greedy, with `parseInt` applied to the capture. -/
def upTo2Digits (l : List Char) : Option (Nat × List Char) :=
  match l with
  | [] => none
  | c :: cs =>
    if c.isDigit then
      match cs with
      | c2 :: rest => if c2.isDigit then some (dval c * 10 + dval c2, rest) else some (dval c, cs)
      | [] => some (dval c, [])
    else none

/-- `(?::(\d{2}))?` with the source's `match[2] ? parseInt(match[2]) : 0`. -/
def optColonMM (l : List Char) : Nat × List Char :=
  match l with
  | ':' :: a :: b :: rest =>
    if a.isDigit && b.isDigit then (dval a * 10 + dval b, rest) else (0, l)
  | _ => (0, l)

/-- `(am|pm)?` (after `\s*`); only the capture matters. -/
def optAmPm (l : List Char) : Option AmPm :=
  match stripChars "am".toList l with
  | some _ => some AmPm.am
  | none =>
    match stripChars "pm".toList l with
    | some _ => some AmPm.pm
    | none => none

/-- The shared time tail `(\d{1,2})(?::(\d{2}))?\s*(am|pm)?`. -/
def matchTimeTail (l : List Char) : Option (Nat × Nat × Option AmPm) := do
  let (h, r1) ← upTo2Digits l
  let (m, r2) := optColonMM r1
  let r3 := r2.dropWhile Char.isWhitespace
  some (h, m, optAmPm r3)

/-- The am/pm adjustment duplicated in each branch of the source:
`if (ampm === 'pm' && hour < 12) hour += 12; if (ampm === 'am' && hour === 12) hour = 0;` -/
def adjustHour (hour : Nat) (ampm : Option AmPm) : Nat :=
  match ampm with
  | some AmPm.pm => if hour < 12 then hour + 12 else hour
  | some AmPm.am => if hour = 12 then 0 else hour
  | none => hour

/-- Try `every\s+<word>\s+at\s+<time tail>` at the current position. -/
def matchEveryWordAtTimeAt (word : List Char) (l : List Char) : Option (Nat × Nat × Option AmPm) := do
  let r1 ← stripChars "every".toList l
  let r2 ← ws1 r1
  let r3 ← stripChars word r2
  let r4 ← ws1 r3
  let r5 ← stripChars "at".toList r4
  let r6 ← ws1 r5
  matchTimeTail r6

/-- Leftmost match of `every\s+<word>\s+at\s+<time tail>`. -/
def searchEveryWordAtTime (word : List Char) : List Char → Option (Nat × Nat × Option AmPm)
  | [] => none
  | c :: cs =>
    match matchEveryWordAtTimeAt word (c :: cs) with
    | some r => some r
    | none => searchEveryWordAtTime word cs

/-- `dayMap` object entries in insertion order (parser.js lines 118-126). -/
def dayMap : List (String × Nat) :=
  [("sunday", 0), ("sun", 0), ("monday", 1), ("mon", 1), ("tuesday", 2), ("tue", 2),
   ("wednesday", 3), ("wed", 3), ("thursday", 4), ("thu", 4), ("friday", 5), ("fri", 5),
   ("saturday", 6), ("sat", 6)]

/-- The `for (const [dayName, dayNum] of Object.entries(dayMap))` loop. -/
def findDayMatch (l : List Char) : List (String × Nat) → Option (String × Nat × (Nat × Nat × Option AmPm))
  | [] => none
  | (dn, num) :: rest =>
    match searchEveryWordAtTime dn.toList l with
    | some t => some (dn, num, t)
    | none => findDayMatch l rest

/-- `parseCronPattern` from parser.js. -/
def parseCronPattern (text : String) : Option CronResult :=
  let lowerText := jsLower text.toList
  match searchEveryNum lowerText with
  | some (value, MHUnit.minute) =>
    some ⟨"*/" ++ toString value ++ " * * * *", "Every " ++ toString value ++ " minute(s)"⟩
  | some (value, MHUnit.hour) =>
    some ⟨"0 */" ++ toString value ++ " * * *", "Every " ++ toString value ++ " hour(s)"⟩
  | none =>
    if hasEveryHour lowerText then
      some ⟨"0 * * * *", "Every hour"⟩
    else
      match searchEveryWordAtTime "day".toList lowerText with
      | some (h0, m, ap) =>
        let hour := adjustHour h0 ap
        some ⟨toString m ++ " " ++ toString hour ++ " * * *",
              "Every day at " ++ formatTime hour m⟩
      | none =>
        match searchEveryWordAtTime "weekday".toList lowerText with
        | some (h0, m, ap) =>
          let hour := adjustHour h0 ap
          some ⟨toString m ++ " " ++ toString hour ++ " * * 1-5",
                "Every weekday at " ++ formatTime hour m⟩
        | none =>
          match findDayMatch lowerText dayMap with
          | some (dn, num, (h0, m, ap)) =>
            let hour := adjustHour h0 ap
            some ⟨toString m ++ " " ++ toString hour ++ " * * " ++ toString num,
                  "Every " ++ capitalize dn ++ " at " ++ formatTime hour m⟩
          | none => none

example : parseCronPattern "every 5 minutes" = some ⟨"*/5 * * * *", "Every 5 minute(s)"⟩ := by decide
example : parseCronPattern "every 2 hours" = some ⟨"0 */2 * * *", "Every 2 hour(s)"⟩ := by decide
example : parseCronPattern "every hour" = some ⟨"0 * * * *", "Every hour"⟩ := by decide
example : parseCronPattern "Every day at 9am" = some ⟨"0 9 * * *", "Every day at 9:00 AM"⟩ := by decide
example : parseCronPattern "every weekday at 9am" = some ⟨"0 9 * * 1-5", "Every weekday at 9:00 AM"⟩ := by decide
example : parseCronPattern "every monday at 2:30pm" = some ⟨"30 14 * * 1", "Every Monday at 2:30 PM"⟩ := by decide
example : parseCronPattern "tomorrow at 9am" = none := by decide
example : parseCronPattern "sometime next blorp" = none := by decide

/-! ## `parseRelativeTime`, `parseTime`, `parseReminderTime`
(parser.js lines 15-49, 154-181, 189-202) -/

inductive TUnit where
  | second
  | minute
  | hour
  | day
  | week
deriving DecidableEq

/-- Millisecond multiplier of each unit (the `switch` of `parseRelativeTime`). -/
def unitMs : TUnit → Int
  | .second => 1000
  | .minute => 60 * 1000
  | .hour => 60 * 60 * 1000
  | .day => 24 * 60 * 60 * 1000
  | .week => 7 * 24 * 60 * 60 * 1000

def unitName : TUnit → String
  | .second => "second"
  | .minute => "minute"
  | .hour => "hour"
  | .day => "day"
  | .week => "week"

/-- Try `in\s+(\d+)\s+(second|minute|hour|day|week)s?` at the current position. -/
def matchRelAt (l : List Char) : Option (Nat × TUnit) := do
  let r1 ← stripChars "in".toList l
  let r2 ← ws1 r1
  let (ds, r3) ← digits1 r2
  let r4 ← ws1 r3
  match stripChars "second".toList r4 with
  | some _ => some (digitsVal ds, TUnit.second)
  | none =>
    match stripChars "minute".toList r4 with
    | some _ => some (digitsVal ds, TUnit.minute)
    | none =>
      match stripChars "hour".toList r4 with
      | some _ => some (digitsVal ds, TUnit.hour)
      | none =>
        match stripChars "day".toList r4 with
        | some _ => some (digitsVal ds, TUnit.day)
        | none =>
          match stripChars "week".toList r4 with
          | some _ => some (digitsVal ds, TUnit.week)
          | none => none

/-- Leftmost match of the relative-time regex. -/
def searchRel : List Char → Option (Nat × TUnit)
  | [] => none
  | c :: cs =>
    match matchRelAt (c :: cs) with
    | some r => some r
    | none => searchRel cs

/-- `parseRelativeTime` from parser.js; `now` is the internal `new Date()`. -/
def parseRelativeTime (now : Int) (text : String) : Option Int :=
  match searchRel (jsLower text.toList) with
  | none => none
  | some (value, unit) => some (now + (value : Int) * unitMs unit)

/-- One entry of the array returned by `chrono.parse(text, referenceDate)`:
the instant `result.start.date()`, the parsed day-of-month component
`result.start.get('day')`, and the matched text `result.text`.  `chrono-node`
is an external library, so its output is a parameter of the embedding. -/
structure ChronoResult where
  date : Int
  dayOfMonth : Nat
  text : String
deriving DecidableEq

/-- Discriminated result of `parseTime` / `parseReminderTime`. -/
inductive TimeResult where
  | recurring (cron : String) (description : String)
  | once (date : Int) (text : String)
deriving DecidableEq

/-- One civil day in milliseconds: `parsedDate.setDate(parsedDate.getDate() + 1)`. -/
def msPerDay : Int := 86400000

/-- `parseTime` from parser.js.  `now` is the `new Date()` of the past-check,
`refDay` is `referenceDate.getDate()`. -/
def parseTime (chronoResults : List ChronoResult) (now : Int) (refDay : Nat)
    (text : String) : Option TimeResult :=
  match parseCronPattern text with
  | some c => some (.recurring c.cron c.description)
  | none =>
    match chronoResults with
    | [] => none
    | r :: _ =>
      let parsedDate :=
        if r.date ≤ now then
          if r.dayOfMonth = refDay then r.date + msPerDay else r.date
        else r.date
      some (.once parsedDate r.text)

/-- `parseReminderTime` from parser.js. -/
def parseReminderTime (chronoResults : List ChronoResult) (now : Int) (refDay : Nat)
    (text : String) : Option TimeResult :=
  match parseRelativeTime now text with
  | some d => some (.once d text)
  | none => parseTime chronoResults now refDay text

example : parseReminderTime [] 1000 7 "in 5 minutes" = some (.once 301000 "in 5 minutes") := by decide
example : parseReminderTime [] 1000 7 "in 1 week" = some (.once 604801000 "in 1 week") := by decide
example : parseReminderTime [] 0 1 "sometime next blorp" = none := by decide
example : parseReminderTime [] 0 1 "every 10 minutes" =
    some (.recurring "*/10 * * * *" "Every 10 minute(s)") := by decide

/-! ## `MemoryStore` reminder table (memory store module)

```
CREATE TABLE IF NOT EXISTS reminders (
  id INTEGER PRIMARY KEY AUTOINCREMENT, message TEXT, trigger_at DATETIME,
  cron_expression TEXT, channel TEXT DEFAULT 'notification',
  status TEXT DEFAULT 'pending', created_at DATETIME DEFAULT CURRENT_TIMESTAMP);
```

Rows are kept in rowid order; `AUTOINCREMENT` is the `nextId` counter
(starting at 1).  `trigger_at` holds an instant (the source stores the
ISO-8601 rendering of it). -/

inductive RStatus where
  | pending
  | completed
  | cancelled
deriving DecidableEq

structure Reminder where
  id : Nat
  message : String
  trigger_at : Option Int
  cron_expression : Option String
  channel : String
  status : RStatus
deriving DecidableEq

structure Store where
  reminders : List Reminder
  nextId : Nat
deriving DecidableEq

def Store.empty : Store := ⟨[], 1⟩

/-- `MemoryStore.addReminder(message, triggerAt, cronExpression, channel)`:
`INSERT INTO reminders (message, trigger_at, cron_expression, channel) VALUES (?,?,?,?)`,
returning `lastInsertRowid`.  `status` takes its schema default `'pending'`. -/
def Store.addReminder (s : Store) (message : String) (triggerAt : Option Int)
    (cron : Option String) (channel : String) : Nat × Store :=
  (s.nextId,
   { reminders := s.reminders ++ [⟨s.nextId, message, triggerAt, cron, channel, .pending⟩],
     nextId := s.nextId + 1 })

/-- `UPDATE reminders SET status = 'completed' WHERE id = ?` — unconditional. -/
def Store.completeReminder (s : Store) (i : Nat) : Store :=
  { s with reminders :=
      s.reminders.map (fun r => if r.id = i then { r with status := .completed } else r) }

/-- `UPDATE reminders SET status = 'cancelled' WHERE id = ?` — unconditional. -/
def Store.cancelReminder (s : Store) (i : Nat) : Store :=
  { s with reminders :=
      s.reminders.map (fun r => if r.id = i then { r with status := .cancelled } else r) }

/-- `SELECT * FROM reminders WHERE id = ?` (`.get`: first row in rowid order). -/
def Store.getReminder (s : Store) (i : Nat) : Option Reminder :=
  s.reminders.find? (fun r => r.id = i)

/-- `getPendingReminders`. -/
def Store.getPendingReminders (s : Store) : List Reminder :=
  s.reminders.filter (fun r => r.status = .pending)

/-! ## Store operation sequences (for the status state machine)

An `Op` is one mutation of the reminder table as the application performs
them: an insert, a `completeReminder` (issued by the scheduler's due-check),
or a `cancelReminder` (issued by `SchedulerManager.cancelReminder`). -/

inductive Op where
  | add (message : String) (triggerAt : Option Int) (cron : Option String) (channel : String)
  | complete (id : Nat)
  | cancel (id : Nat)
deriving DecidableEq

def applyOp (s : Store) : Op → Store
  | .add m t c ch => (s.addReminder m t c ch).2
  | .complete i => s.completeReminder i
  | .cancel i => s.cancelReminder i

def runOps (s : Store) : List Op → Store
  | [] => s
  | op :: ops => runOps (applyOp s op) ops

/-- Discipline under which the scheduler issues store mutations:
`completeReminder` only on rows returned by `getDueReminders`
(`status='pending' AND trigger_at IS NOT NULL`), and `cancelReminder` never
on an already-completed row. -/
def okOp (s : Store) : Op → Prop
  | .add _ _ _ _ => True
  | .complete i => ∀ r ∈ s.reminders, r.id = i → r.status = .pending ∧ r.trigger_at ≠ none
  | .cancel i => ∀ r ∈ s.reminders, r.id = i → r.status ≠ .completed

def GuardedRun (s : Store) : List Op → Prop
  | [] => True
  | op :: ops => okOp s op ∧ GuardedRun (applyOp s op) ops

/-- Multi-step status evolution allowed by the spec: stay put, or leave
`pending` once. -/
def StepStar (a b : RStatus) : Prop := a = b ∨ (a = .pending ∧ b ≠ .pending)

/-! ## `SchedulerManager` (manager.js) -/

/-- Object returned by `SchedulerManager.addReminder` (one shape per branch). -/
inductive AddInfo where
  | recurring (id : Nat) (message : String) (cron : String) (description : String) (channel : String)
  | once (id : Nat) (message : String) (triggerAt : Int) (channel : String)
deriving DecidableEq

/-- Scheduler state: the backing store, the keys of the `cronJobs` map (ids
whose `node-cron` task is armed, in insertion order), and the running flag. -/
structure SM where
  store : Store
  cronJobs : List Nat
  running : Bool
deriving DecidableEq

/-- `scheduleRecurring(reminder)`: skip if the cron expression is missing or
syntactically invalid, skip if a job for this id already exists, otherwise
arm a cron task for the id (`cron.schedule` on an expression accepted by
`isValidCron` succeeds). -/
def SM.scheduleRecurring (st : SM) (r : Reminder) : SM :=
  match r.cron_expression with
  | none => st
  | some ce =>
    if !isValidCron ce then st
    else if st.cronJobs.contains r.id then st
    else { st with cronJobs := st.cronJobs ++ [r.id] }

/-- `SchedulerManager.addReminder(message, timeSpec, channel)` (manager.js
lines 422-462).  A thrown `Error` is `Except.error` of its message, the
state is then unchanged. -/
def SM.addReminder (chronoResults : List ChronoResult) (now : Int) (refDay : Nat)
    (message timeSpec channel : String) (st : SM) : Except String AddInfo × SM :=
  match parseReminderTime chronoResults now refDay timeSpec with
  | none => (.error ("Could not parse time: \"" ++ timeSpec ++ "\""), st)
  | some (.recurring cron description) =>
    let (id, store') := st.store.addReminder message none (some cron) channel
    let st' : SM := { st with store := store' }
    let st'' :=
      if st.running then
        match store'.getReminder id with
        | some r => st'.scheduleRecurring r
        | none => st'
      else st'
    (.ok (.recurring id message cron description channel), st'')
  | some (.once date _) =>
    let (id, store') := st.store.addReminder message (some date) none channel
    (.ok (.once id message date channel), { st with store := store' })

/-- `SchedulerManager.cancelReminder(id)` (manager.js lines 467-477): stop
and drop the cron task if present, then `store.cancelReminder(id)`.  No
throw path. -/
def SM.cancelReminder (i : Nat) (st : SM) : SM :=
  { st with cronJobs := st.cronJobs.filter (fun j => j ≠ i),
            store := st.store.cancelReminder i }

/-! ## `TriggerService` (trigger-service.js) -/

/-- The `lastError` object recorded on a failed run. -/
structure JError where
  message : String
  stack : String
  time : Int
deriving DecidableEq

/-- One entry of the `jobs` map.  `timer` is whether an interval timer is
armed (`job.timer !== null`); the handler function reference is an opaque
token. -/
structure TJob where
  name : String
  interval : Int
  handler : Nat
  description : String
  enabled : Bool
  timer : Bool
  runCount : Nat
  lastRun : Option Int
  lastDuration : Option Int
  lastError : Option JError
  createdAt : Int
deriving DecidableEq

/-- The `options` object of `register`.  `interval = none` models a
non-number value (`typeof interval !== 'number'`), `handler = none` a
non-function value. -/
structure RegOptions where
  interval : Option Int
  handler : Option Nat
  immediate : Bool := false
  enabled : Bool := true
  description : String := ""

/-- Service state: jobs in registration (map insertion) order, plus the
global `started` flag. -/
structure TS where
  jobs : List TJob
  started : Bool
deriving DecidableEq

def TS.findJob (st : TS) (name : String) : Option TJob :=
  st.jobs.find? (fun j => j.name = name)

def TS.hasJob (st : TS) (name : String) : Bool :=
  st.jobs.any (fun j => j.name = name)

/-- `_startJob(job, immediate)`: clear any old timer and arm a new one.  The
`immediate` execution is deferred via `setImmediate`, so it is not part of
this synchronous state change. -/
def TS.armTimer (st : TS) (name : String) : TS :=
  { st with jobs := st.jobs.map (fun j => if j.name = name then { j with timer := true } else j) }

/-- `register(name, { interval, handler, immediate, enabled, description })`
(trigger-service.js lines 49-84); `now` is `Date.now()` for `createdAt`. -/
def TS.register (now : Int) (name : String) (o : RegOptions) (st : TS) :
    Except String Unit × TS :=
  if st.hasJob name then
    (.error ("Job \"" ++ name ++ "\" already registered"), st)
  else
    match o.interval with
    | none => (.error ("Invalid interval for job \"" ++ name ++ "\": must be a positive number"), st)
    | some iv =>
      if iv ≤ 0 then
        (.error ("Invalid interval for job \"" ++ name ++ "\": must be a positive number"), st)
      else
        match o.handler with
        | none => (.error ("Invalid handler for job \"" ++ name ++ "\": must be a function"), st)
        | some h =>
          let job : TJob :=
            ⟨name, iv, h, o.description, o.enabled, false, 0, none, none, none, now⟩
          let st' : TS := { st with jobs := st.jobs ++ [job] }
          let st'' := if o.enabled && st.started then st'.armTimer name else st'
          (.ok (), st'')

/-- `stop(name)` (lines 171-184). -/
def TS.stop (name : String) (st : TS) : Except String Unit × TS :=
  match st.findJob name with
  | none => (.error ("Job \"" ++ name ++ "\" not found"), st)
  | some _ =>
    (.ok (),
     { st with jobs := st.jobs.map (fun j =>
         if j.name = name then { j with timer := false, enabled := false } else j) })

/-- `startJob(name, immediate)` (lines 191-208). -/
def TS.startJob (name : String) (_immediate : Bool) (st : TS) : Except String Unit × TS :=
  match st.findJob name with
  | none => (.error ("Job \"" ++ name ++ "\" not found"), st)
  | some j =>
    if j.enabled && j.timer then (.ok (), st)
    else
      let st' : TS := { st with jobs := st.jobs.map (fun j =>
        if j.name = name then { j with enabled := true } else j) }
      let st'' := if st.started then st'.armTimer name else st'
      (.ok (), st'')

/-- `unregister(name)` (lines 214-227): returns `false` (no throw) when the
job does not exist, otherwise disarms and deletes it. -/
def TS.unregister (name : String) (st : TS) : Except String Bool × TS :=
  match st.findJob name with
  | none => (.ok false, st)
  | some _ => (.ok true, { st with jobs := st.jobs.filter (fun j => !(j.name = name : Bool)) })

/-- `updateInterval(name, newInterval)` (lines 234-253).  `newInterval = none`
models a non-number value. -/
def TS.updateInterval (name : String) (newInterval : Option Int) (st : TS) :
    Except String Unit × TS :=
  match st.findJob name with
  | none => (.error ("Job \"" ++ name ++ "\" not found"), st)
  | some j =>
    match newInterval with
    | none => (.error "Invalid interval: must be a positive number", st)
    | some iv =>
      if iv ≤ 0 then (.error "Invalid interval: must be a positive number", st)
      else
        let st' : TS := { st with jobs := st.jobs.map (fun j =>
          if j.name = name then { j with interval := iv } else j) }
        let st'' := if j.enabled && j.timer && st.started then st'.armTimer name else st'
        (.ok (), st'')

/-- Outcome of one invocation of a job's external handler. -/
inductive JOutcome where
  | success
  | failure (message : String) (stack : String)
deriving DecidableEq

/-- `_executeJob(job)` (lines 127-165) applied to one job record.
`startTime` is the `Date.now()` at entry, `endTime` the one of the
`lastDuration` computation. -/
def execJob (out : JOutcome) (startTime endTime : Int) (j : TJob) : TJob :=
  match out with
  | .success =>
    { j with runCount := j.runCount + 1, lastRun := some startTime,
             lastDuration := some (endTime - startTime), lastError := none }
  | .failure m s =>
    { j with lastRun := some startTime, lastDuration := some (endTime - startTime),
             lastError := some ⟨m, s, startTime⟩ }

/-- `trigger(name)` (lines 259-266): throw if unknown, else run the handler
through `_executeJob`. -/
def TS.trigger (out : JOutcome) (startTime endTime : Int) (name : String) (st : TS) :
    Except String Unit × TS :=
  match st.findJob name with
  | none => (.error ("Job \"" ++ name ++ "\" not found"), st)
  | some _ =>
    (.ok (),
     { st with jobs := st.jobs.map (fun j =>
         if j.name = name then execJob out startTime endTime j else j) })

/-! ## Helper lemmas -/

theorem scheduleRecurring_store (st : SM) (r : Reminder) :
    (st.scheduleRecurring r).store = st.store := by
  unfold SM.scheduleRecurring
  cases r.cron_expression with
  | none => rfl
  | some ce =>
    dsimp only
    split
    · rfl
    · split <;> rfl

theorem find?_map_of_name_pres (f : TJob → TJob) (hf : ∀ x, (f x).name = x.name)
    (n : String) (l : List TJob) :
    (l.map f).find? (fun x => x.name = n) = (l.find? (fun x => x.name = n)).map f := by
  induction l with
  | nil => rfl
  | cons a as ih =>
    by_cases h : a.name = n
    · rw [List.map_cons, List.find?_cons_of_pos, List.find?_cons_of_pos] <;>
        simp [h, hf a]
    · rw [List.map_cons, List.find?_cons_of_neg, List.find?_cons_of_neg, ih] <;>
        simp [h, hf a]

/-! ## Claims -/

/-- C10: when a trigger-job handler throws, `_executeJob` updates only
`lastRun`, `lastDuration` and `lastError` on that job; `runCount` is not
incremented on a failed run and increments only on success; all other job
fields are unchanged; the next successful execution resets `lastError` to
`null`. -/
theorem c10_executeJob_failure_frame (j : TJob) (m s : String) (t e u v : Int) :
    (execJob (.failure m s) t e j).runCount = j.runCount ∧
    (execJob (.failure m s) t e j).name = j.name ∧
    (execJob (.failure m s) t e j).interval = j.interval ∧
    (execJob (.failure m s) t e j).handler = j.handler ∧
    (execJob (.failure m s) t e j).description = j.description ∧
    (execJob (.failure m s) t e j).enabled = j.enabled ∧
    (execJob (.failure m s) t e j).timer = j.timer ∧
    (execJob (.failure m s) t e j).createdAt = j.createdAt ∧
    (execJob (.failure m s) t e j).lastRun = some t ∧
    (execJob (.failure m s) t e j).lastDuration = some (e - t) ∧
    (execJob (.failure m s) t e j).lastError = some ⟨m, s, t⟩ ∧
    (execJob .success u v j).runCount = j.runCount + 1 ∧
    (execJob .success u v (execJob (.failure m s) t e j)).lastError = none :=
  ⟨rfl, rfl, rfl, rfl, rfl, rfl, rfl, rfl, rfl, rfl, rfl, rfl, rfl⟩

/-- C7: `register` throws synchronously on a duplicate name, a non-positive
or non-number interval, or a non-callable handler, and in every such case
the registry (including the first job's metadata) is left unchanged. -/
theorem c7_register_invalid (now : Int) (name : String) (o : RegOptions) (st : TS) :
    (st.hasJob name = true →
      TS.register now name o st =
        (.error ("Job \"" ++ name ++ "\" already registered"), st)) ∧
    (st.hasJob name = false →
      (o.interval = none ∨ ∃ iv, o.interval = some iv ∧ iv ≤ 0) →
      TS.register now name o st =
        (.error ("Invalid interval for job \"" ++ name ++ "\": must be a positive number"), st)) ∧
    (st.hasJob name = false → ∀ iv, o.interval = some iv → 0 < iv → o.handler = none →
      TS.register now name o st =
        (.error ("Invalid handler for job \"" ++ name ++ "\": must be a function"), st)) := by
  refine ⟨fun h => ?_, fun h hiv => ?_, fun h iv hiv hpos hh => ?_⟩
  · simp [TS.register, h]
  · rcases hiv with h1 | ⟨iv, h1, h2⟩
    · simp [TS.register, h, h1]
    · simp [TS.register, h, h1, h2]
  · simp [TS.register, h, hiv, hh, show ¬iv ≤ 0 by omega]

/-- C7 witness: a duplicate registration of "x" throws and leaves the first
job (runCount 3, lastRun 5, interval 1000) untouched. -/
theorem c7_register_invalid_witness :
    TS.register 99 "x" ⟨some 1000, some 0, false, true, ""⟩
        ⟨[⟨"x", 1000, 0, "", true, false, 3, some 5, some 2, none, 0⟩], false⟩ =
      (.error "Job \"x\" already registered",
       ⟨[⟨"x", 1000, 0, "", true, false, 3, some 5, some 2, none, 0⟩], false⟩) :=
  (c7_register_invalid 99 "x" ⟨some 1000, some 0, false, true, ""⟩
    ⟨[⟨"x", 1000, 0, "", true, false, 3, some 5, some 2, none, 0⟩], false⟩).1 (by decide)

/-- C4: when `parseReminderTime` returns null, `addReminder` throws an error
whose message names the offending timeSpec, and the state (in particular the
reminder store) is unchanged. -/
theorem c4_addReminder_parse_failure (chronoResults : List ChronoResult) (now : Int)
    (refDay : Nat) (message timeSpec channel : String) (st : SM)
    (h : parseReminderTime chronoResults now refDay timeSpec = none) :
    SM.addReminder chronoResults now refDay message timeSpec channel st =
      (.error ("Could not parse time: \"" ++ timeSpec ++ "\""), st) := by
  simp [SM.addReminder, h]

/-- C4 witness: `addReminder("Test", "sometime next blorp", "notification")`
throws naming the text; no reminder persisted. -/
theorem c4_addReminder_parse_failure_witness :
    SM.addReminder [] 0 1 "Test" "sometime next blorp" "notification" ⟨Store.empty, [], false⟩ =
      (.error "Could not parse time: \"sometime next blorp\"", ⟨Store.empty, [], false⟩) :=
  c4_addReminder_parse_failure [] 0 1 "Test" "sometime next blorp" "notification"
    ⟨Store.empty, [], false⟩ (by decide)

/-- C1: every successful `addReminder` appends exactly one reminder record,
and that record has exactly one of `trigger_at` / `cron_expression` non-null:
the cron expression when the parsed timeSpec is recurring, the trigger
instant otherwise. -/
theorem c1_addReminder_exclusive (chronoResults : List ChronoResult) (now : Int)
    (refDay : Nat) (message timeSpec channel : String) (st st' : SM) (info : AddInfo)
    (h : SM.addReminder chronoResults now refDay message timeSpec channel st = (.ok info, st')) :
    ∃ r : Reminder,
      st'.store.reminders = st.store.reminders ++ [r] ∧
      ((r.trigger_at ≠ none ∧ r.cron_expression = none) ∨
        (r.trigger_at = none ∧ r.cron_expression ≠ none)) ∧
      (∀ c d, parseReminderTime chronoResults now refDay timeSpec = some (.recurring c d) →
        r.cron_expression = some c ∧ r.trigger_at = none) ∧
      (∀ dt tx, parseReminderTime chronoResults now refDay timeSpec = some (.once dt tx) →
        r.trigger_at = some dt ∧ r.cron_expression = none) := by
  cases hp : parseReminderTime chronoResults now refDay timeSpec with
  | none => simp [SM.addReminder, hp] at h
  | some tr =>
    cases tr with
    | recurring cron description =>
      refine ⟨⟨st.store.nextId, message, none, some cron, channel, .pending⟩, ?_, ?_, ?_, ?_⟩
      · have hst : st'.store = (st.store.addReminder message none (some cron) channel).2 := by
          simp only [SM.addReminder, hp, Store.addReminder] at h
          rw [← ((Prod.mk.injEq _ _ _ _).mp h).2]
          split
          · split
            · rw [scheduleRecurring_store]
              rfl
            · rfl
          · rfl
        rw [hst]
        rfl
      · exact Or.inr ⟨rfl, by simp⟩
      · intro c d hcd
        injection hcd with hcd'
        injection hcd' with h1 h2
        exact ⟨by rw [h1], rfl⟩
      · intro dt tx hdt
        injection hdt with hdt'
        exact absurd hdt' (by simp)
    | once date tx =>
      refine ⟨⟨st.store.nextId, message, some date, none, channel, .pending⟩, ?_, ?_, ?_, ?_⟩
      · have hst : st' = { st with store := (st.store.addReminder message (some date) none channel).2 } := by
          simp only [SM.addReminder, hp] at h
          exact ((Prod.mk.injEq _ _ _ _).mp h).2.symm
        rw [hst]
        rfl
      · exact Or.inl ⟨by simp, rfl⟩
      · intro c d hcd
        injection hcd with hcd'
        exact absurd hcd' (by simp)
      · intro dt tx' hdt
        injection hdt with hdt'
        injection hdt' with h1 h2
        exact ⟨by rw [h1], rfl⟩

/-- C1 witness: `addReminder("Standup", "every 2 minutes", "voice")` on a
fresh stopped scheduler persists one reminder with `cron_expression` set and
`trigger_at` null. -/
theorem c1_addReminder_exclusive_witness :
    ∃ r : Reminder,
      (⟨⟨[⟨1, "Standup", none, some "*/2 * * * *", "voice", RStatus.pending⟩], 2⟩, [], false⟩ : SM).store.reminders =
        (⟨Store.empty, [], false⟩ : SM).store.reminders ++ [r] ∧
      ((r.trigger_at ≠ none ∧ r.cron_expression = none) ∨
        (r.trigger_at = none ∧ r.cron_expression ≠ none)) ∧
      (∀ c d, parseReminderTime [] 0 1 "every 2 minutes" = some (.recurring c d) →
        r.cron_expression = some c ∧ r.trigger_at = none) ∧
      (∀ dt tx, parseReminderTime [] 0 1 "every 2 minutes" = some (.once dt tx) →
        r.trigger_at = some dt ∧ r.cron_expression = none) :=
  c1_addReminder_exclusive [] 0 1 "Standup" "every 2 minutes" "voice"
    ⟨Store.empty, [], false⟩
    ⟨⟨[⟨1, "Standup", none, some "*/2 * * * *", "voice", RStatus.pending⟩], 2⟩, [], false⟩
    (.recurring 1 "Standup" "*/2 * * * *" "Every 2 minute(s)" "voice") rfl

/-- C6: when `parseCronPattern` does not match, a parsed one-time date in the
past whose day-of-month equals the reference day is rolled forward by one
day, and a parsed date in the future is returned unchanged. -/
theorem c6_parseTime_rollforward (text : String) (r : ChronoResult)
    (rs : List ChronoResult) (now : Int) (refDay : Nat)
    (hc : parseCronPattern text = none) :
    (r.date < now → r.dayOfMonth = refDay →
      parseTime (r :: rs) now refDay text = some (.once (r.date + msPerDay) r.text)) ∧
    (now < r.date →
      parseTime (r :: rs) now refDay text = some (.once r.date r.text)) := by
  constructor
  · intro h1 h2
    simp [parseTime, hc, h2, le_of_lt h1]
  · intro h1
    simp [parseTime, hc, not_le.mpr h1]

/-- C6 witness: "tomorrow at 9am" parsed to instant 1000 with day-of-month 5:
rolled forward by one day when now = 2000 (same day), unchanged when
now = 500. -/
theorem c6_parseTime_rollforward_witness :
    parseTime [⟨1000, 5, "tomorrow at 9am"⟩] 2000 5 "tomorrow at 9am" =
      some (.once (1000 + msPerDay) "tomorrow at 9am") ∧
    parseTime [⟨1000, 5, "tomorrow at 9am"⟩] 500 5 "tomorrow at 9am" =
      some (.once 1000 "tomorrow at 9am") :=
  ⟨(c6_parseTime_rollforward "tomorrow at 9am" ⟨1000, 5, "tomorrow at 9am"⟩ [] 2000 5
      (by decide)).1 (by decide) rfl,
   (c6_parseTime_rollforward "tomorrow at 9am" ⟨1000, 5, "tomorrow at 9am"⟩ [] 500 5
      (by decide)).2 (by decide)⟩

/-- C9: stopping a registered job and starting it again preserves its
`runCount`, `lastRun` and `description`. -/
theorem c9_stop_start_roundtrip (name : String) (imm : Bool) (st : TS) (j : TJob)
    (hj : st.findJob name = some j) :
    ∃ st1 st2 j',
      TS.stop name st = (.ok (), st1) ∧
      TS.startJob name imm st1 = (.ok (), st2) ∧
      st2.findJob name = some j' ∧
      j'.runCount = j.runCount ∧ j'.lastRun = j.lastRun ∧ j'.description = j.description := by
  have hjn : j.name = name := by
    have := List.find?_some hj
    simpa using this
  set f1 : TJob → TJob :=
    fun x => if x.name = name then { x with timer := false, enabled := false } else x with hf1
  set f2 : TJob → TJob :=
    fun x => if x.name = name then { x with enabled := true } else x with hf2
  set f3 : TJob → TJob :=
    fun x => if x.name = name then { x with timer := true } else x with hf3
  have hf1n : ∀ x, (f1 x).name = x.name := by
    intro x
    by_cases hx : x.name = name <;> simp [hf1, hx]
  have hf2n : ∀ x, (f2 x).name = x.name := by
    intro x
    by_cases hx : x.name = name <;> simp [hf2, hx]
  have hf3n : ∀ x, (f3 x).name = x.name := by
    intro x
    by_cases hx : x.name = name <;> simp [hf3, hx]
  have hstop : TS.stop name st = (.ok (), { st with jobs := st.jobs.map f1 }) := by
    unfold TS.stop
    rw [hj]
  have hfind1 : TS.findJob { st with jobs := st.jobs.map f1 } name = some (f1 j) := by
    show (st.jobs.map f1).find? (fun x => x.name = name) = some (f1 j)
    rw [find?_map_of_name_pres f1 hf1n]
    rw [show st.jobs.find? (fun x => x.name = name) = some j from hj]
    rfl
  have hj1false : (f1 j).enabled = false := by
    simp [hf1, hjn]
  by_cases hs : st.started
  · refine ⟨{ st with jobs := st.jobs.map f1 },
      { st with jobs := ((st.jobs.map f1).map f2).map f3 }, f3 (f2 (f1 j)),
      hstop, ?_, ?_, ?_, ?_, ?_⟩
    · unfold TS.startJob
      rw [hfind1]
      simp only [hj1false, Bool.false_and, if_false, hs, if_true, TS.armTimer]
      rfl
    · show (((st.jobs.map f1).map f2).map f3).find? (fun x => x.name = name) = _
      rw [find?_map_of_name_pres f3 hf3n, find?_map_of_name_pres f2 hf2n,
        find?_map_of_name_pres f1 hf1n]
      rw [show st.jobs.find? (fun x => x.name = name) = some j from hj]
      rfl
    · simp [hf1, hf2, hf3, hjn]
    · simp [hf1, hf2, hf3, hjn]
    · simp [hf1, hf2, hf3, hjn]
  · refine ⟨{ st with jobs := st.jobs.map f1 },
      { st with jobs := (st.jobs.map f1).map f2 }, f2 (f1 j),
      hstop, ?_, ?_, ?_, ?_, ?_⟩
    · unfold TS.startJob
      rw [hfind1]
      simp only [hj1false, Bool.false_and, if_false, Bool.not_eq_true] at *
      simp only [hs, if_false]
      rfl
    · show ((st.jobs.map f1).map f2).find? (fun x => x.name = name) = _
      rw [find?_map_of_name_pres f2 hf2n, find?_map_of_name_pres f1 hf1n]
      rw [show st.jobs.find? (fun x => x.name = name) = some j from hj]
      rfl
    · simp [hf1, hf2, hjn]
    · simp [hf1, hf2, hjn]
    · simp [hf1, hf2, hjn]

theorem stripChars_append (w r : List Char) : stripChars w (w ++ r) = some r := by
  induction w with
  | nil => rfl
  | cons c cs ih => simp [stripChars, ih]

theorem toLower_eq_self_of_isDigit (c : Char) (h : c.isDigit = true) : c.toLower = c := by
  simp only [Char.isDigit, Bool.and_eq_true, decide_eq_true_eq] at h
  have h57 : c.toNat ≤ 57 := by
    have := h.2
    rw [UInt32.le_def, BitVec.le_def] at this
    simpa [Char.toNat, UInt32.toNat] using this
  simp only [Char.toLower]
  rw [if_neg]
  omega

theorem isWhitespace_eq_false_of_isDigit (c : Char) (h : c.isDigit = true) :
    c.isWhitespace = false := by
  rcases Bool.eq_false_or_eq_true c.isWhitespace with hw | hw
  · exfalso
    simp only [Char.isWhitespace, Bool.or_eq_true, decide_eq_true_eq] at hw
    rcases hw with ((h1 | h1) | h1) | h1 <;> subst h1 <;> exact absurd h (by decide)
  · exact hw

theorem takeWhile_append_of_all (p : Char → Bool) (l : List Char)
    (hl : ∀ c ∈ l, p c = true) (c : Char) (hc : p c = false) (r : List Char) :
    ((l ++ c :: r).takeWhile p) = l := by
  induction l with
  | nil => simp [List.takeWhile_cons, hc]
  | cons a as ih =>
    have ha := hl a (List.mem_cons_self a as)
    simp only [List.cons_append, List.takeWhile_cons, ha, if_true]
    rw [ih (fun x hx => hl x (List.mem_cons_of_mem a hx))]

theorem dropWhile_append_of_all (p : Char → Bool) (l : List Char)
    (hl : ∀ c ∈ l, p c = true) (c : Char) (hc : p c = false) (r : List Char) :
    ((l ++ c :: r).dropWhile p) = c :: r := by
  induction l with
  | nil => simp [List.dropWhile_cons, hc]
  | cons a as ih =>
    have ha := hl a (List.mem_cons_self a as)
    simp only [List.cons_append, List.dropWhile_cons, ha, if_true]
    exact ih (fun x hx => hl x (List.mem_cons_of_mem a hx))

/-- `matchRelAt` on a canonical `in N …` prefix reduces to its unit-word
dispatch. -/
theorem matchRelAt_canonical (d : Char) (ds' : List Char)
    (hdig : ∀ c ∈ d :: ds', c.isDigit = true)
    (w : Char) (t : List Char) (hw : w.isWhitespace = false) :
    matchRelAt ('i' :: 'n' :: ' ' :: ((d :: ds') ++ ' ' :: w :: t)) =
      (match stripChars "second".toList (w :: t) with
       | some _ => some (digitsVal (d :: ds'), TUnit.second)
       | none =>
         match stripChars "minute".toList (w :: t) with
         | some _ => some (digitsVal (d :: ds'), TUnit.minute)
         | none =>
           match stripChars "hour".toList (w :: t) with
           | some _ => some (digitsVal (d :: ds'), TUnit.hour)
           | none =>
             match stripChars "day".toList (w :: t) with
             | some _ => some (digitsVal (d :: ds'), TUnit.day)
             | none =>
               match stripChars "week".toList (w :: t) with
               | some _ => some (digitsVal (d :: ds'), TUnit.week)
               | none => none) := by
  have hdw : Char.isWhitespace d = false :=
    isWhitespace_eq_false_of_isDigit d (hdig d (List.mem_cons_self d ds'))
  have hsp : (' ' : Char).isWhitespace = true := by decide
  have hspd : Char.isDigit ' ' = false := by decide
  have e1 : stripChars "in".toList ('i' :: 'n' :: ' ' :: ((d :: ds') ++ ' ' :: w :: t)) =
      some (' ' :: ((d :: ds') ++ ' ' :: w :: t)) := rfl
  have e2 : ws1 (' ' :: ((d :: ds') ++ ' ' :: w :: t)) = some ((d :: ds') ++ ' ' :: w :: t) := by
    simp [ws1, hsp, List.cons_append, List.dropWhile_cons, hdw]
  have e3 : digits1 ((d :: ds') ++ ' ' :: w :: t) = some (d :: ds', ' ' :: w :: t) := by
    unfold digits1
    rw [takeWhile_append_of_all _ _ hdig ' ' hspd, dropWhile_append_of_all _ _ hdig ' ' hspd]
    simp
  have e4 : ws1 (' ' :: w :: t) = some (w :: t) := by
    simp [ws1, hsp, List.dropWhile_cons, hw]
  simp only [matchRelAt, bind, Option.bind, e1, e2, e3, e4]

/-- `searchRel` finds the canonical match at position 0. -/
theorem searchRel_word (d : Char) (ds' : List Char)
    (hdig : ∀ c ∈ d :: ds', c.isDigit = true) (u : TUnit) (r : List Char) :
    searchRel ('i' :: 'n' :: ' ' :: ((d :: ds') ++ ' ' :: ((unitName u).toList ++ r))) =
      some (digitsVal (d :: ds'), u) := by
  have step : matchRelAt ('i' :: 'n' :: ' ' :: ((d :: ds') ++ ' ' :: ((unitName u).toList ++ r))) =
      some (digitsVal (d :: ds'), u) := by
    cases u with
    | second =>
      rw [show (unitName TUnit.second).toList ++ r = 's' :: ("econd".toList ++ r) from rfl,
        matchRelAt_canonical d ds' hdig 's' ("econd".toList ++ r) (by decide),
        show stripChars "second".toList ('s' :: ("econd".toList ++ r)) = some r from
          stripChars_append _ r]
    | minute =>
      rw [show (unitName TUnit.minute).toList ++ r = 'm' :: ("inute".toList ++ r) from rfl,
        matchRelAt_canonical d ds' hdig 'm' ("inute".toList ++ r) (by decide),
        show stripChars "second".toList ('m' :: ("inute".toList ++ r)) = none from rfl,
        show stripChars "minute".toList ('m' :: ("inute".toList ++ r)) = some r from
          stripChars_append _ r]
    | hour =>
      rw [show (unitName TUnit.hour).toList ++ r = 'h' :: ("our".toList ++ r) from rfl,
        matchRelAt_canonical d ds' hdig 'h' ("our".toList ++ r) (by decide),
        show stripChars "second".toList ('h' :: ("our".toList ++ r)) = none from rfl,
        show stripChars "minute".toList ('h' :: ("our".toList ++ r)) = none from rfl,
        show stripChars "hour".toList ('h' :: ("our".toList ++ r)) = some r from
          stripChars_append _ r]
    | day =>
      rw [show (unitName TUnit.day).toList ++ r = 'd' :: ("ay".toList ++ r) from rfl,
        matchRelAt_canonical d ds' hdig 'd' ("ay".toList ++ r) (by decide),
        show stripChars "second".toList ('d' :: ("ay".toList ++ r)) = none from rfl,
        show stripChars "minute".toList ('d' :: ("ay".toList ++ r)) = none from rfl,
        show stripChars "hour".toList ('d' :: ("ay".toList ++ r)) = none from rfl,
        show stripChars "day".toList ('d' :: ("ay".toList ++ r)) = some r from
          stripChars_append _ r]
    | week =>
      rw [show (unitName TUnit.week).toList ++ r = 'w' :: ("eek".toList ++ r) from rfl,
        matchRelAt_canonical d ds' hdig 'w' ("eek".toList ++ r) (by decide),
        show stripChars "second".toList ('w' :: ("eek".toList ++ r)) = none from rfl,
        show stripChars "minute".toList ('w' :: ("eek".toList ++ r)) = none from rfl,
        show stripChars "hour".toList ('w' :: ("eek".toList ++ r)) = none from rfl,
        show stripChars "day".toList ('w' :: ("eek".toList ++ r)) = none from rfl,
        show stripChars "week".toList ('w' :: ("eek".toList ++ r)) = some r from
          stripChars_append _ r]
  unfold searchRel
  rw [step]

/-- C8: every input of the canonical form `in N <unit>…` (N given by a
non-empty digit string, any suffix after the unit word, e.g. a plural `s`)
parses to a `type: "once"` result whose date is exactly now + N × unit
milliseconds. -/
theorem c8_relative_once (chronoResults : List ChronoResult) (now : Int) (refDay : Nat)
    (d : Char) (ds' : List Char) (hdig : ∀ c ∈ d :: ds', c.isDigit = true)
    (u : TUnit) (rest : List Char) :
    parseReminderTime chronoResults now refDay
        (String.mk ('i' :: 'n' :: ' ' :: ((d :: ds') ++ ' ' :: ((unitName u).toList ++ rest)))) =
      some (.once (now + (digitsVal (d :: ds') : Int) * unitMs u)
        (String.mk ('i' :: 'n' :: ' ' :: ((d :: ds') ++ ' ' :: ((unitName u).toList ++ rest))))) := by
  have hds : List.map Char.toLower (d :: ds') = d :: ds' := by
    rw [List.map_congr_left (g := fun c => c)
      (fun c hc => toLower_eq_self_of_isDigit c (hdig c hc)), List.map_id']
  have hunit : List.map Char.toLower (unitName u).toList = (unitName u).toList := by
    cases u <;> decide
  have hi : Char.toLower 'i' = 'i' := by decide
  have hn : Char.toLower 'n' = 'n' := by decide
  have hsp : Char.toLower ' ' = ' ' := by decide
  have hlow : jsLower ('i' :: 'n' :: ' ' :: ((d :: ds') ++ ' ' :: ((unitName u).toList ++ rest))) =
      'i' :: 'n' :: ' ' :: ((d :: ds') ++ ' ' :: ((unitName u).toList ++ (rest.map Char.toLower))) := by
    simp only [jsLower, List.map_cons, List.map_append, hds, hunit, hi, hn, hsp]
  have e0 : (String.mk ('i' :: 'n' :: ' ' ::
        ((d :: ds') ++ ' ' :: ((unitName u).toList ++ rest)))).toList =
      'i' :: 'n' :: ' ' :: ((d :: ds') ++ ' ' :: ((unitName u).toList ++ rest)) := rfl
  unfold parseReminderTime parseRelativeTime
  rw [show jsLower (String.mk ('i' :: 'n' :: ' ' ::
        ((d :: ds') ++ ' ' :: ((unitName u).toList ++ rest)))).toList =
      'i' :: 'n' :: ' ' :: ((d :: ds') ++ ' ' :: ((unitName u).toList ++ (rest.map Char.toLower)))
    from hlow]
  rw [searchRel_word d ds' hdig u (rest.map Char.toLower)]

/-- C8 witness: `"in 5 minutes"` at now = 1000 parses to `once` at
1000 + 5 × 60000 = 301000. -/
theorem c8_relative_once_witness :
    parseReminderTime [] 1000 7 "in 5 minutes" = some (.once 301000 "in 5 minutes") := by
  have h := c8_relative_once [] 1000 7 '5' [] (by decide) TUnit.minute ['s']
  exact h

theorem stepStar_refl (a : RStatus) : StepStar a a := Or.inl rfl

theorem stepStar_trans {a b c : RStatus} (h1 : StepStar a b) (h2 : StepStar b c) :
    StepStar a c := by
  rcases h1 with h1 | ⟨ha, hb⟩
  · rwa [h1]
  · rcases h2 with h2 | ⟨hb', hc⟩
    · exact Or.inr ⟨ha, h2 ▸ hb⟩
    · exact absurd hb' hb

/-- C2 counterexample: the raw store updates are unconditional, so the
sequence add / complete / cancel — all reachable through the public API
(the due-check completes, then `SchedulerManager.cancelReminder` is called
on the completed id) — moves a reminder from `completed` to `cancelled`:
`completed` is not terminal as claimed. -/
theorem c2_terminality_counterexample :
    (runOps Store.empty [Op.add "m" (some 0) none "n", Op.complete 1]).reminders =
      [⟨1, "m", some 0, none, "n", RStatus.completed⟩] ∧
    (runOps Store.empty [Op.add "m" (some 0) none "n", Op.complete 1, Op.cancel 1]).reminders =
      [⟨1, "m", some 0, none, "n", RStatus.cancelled⟩] ∧
    RStatus.completed ≠ RStatus.cancelled :=
  ⟨rfl, rfl, by decide⟩

/-- C2 (amended): under runs in which `completeReminder` is only applied to
pending reminders with a non-null `trigger_at` (the rows `getDueReminders`
returns) and `cancelReminder` is never applied to a completed reminder, a
reminder's status only evolves by staying put or leaving `pending` for
`completed` or `cancelled` (so both are terminal), its id and `trigger_at`
never change, and a cron-based reminder (null `trigger_at`) that no cancel
operation targets stays `pending`.  Without those guards the store updates
are unconditional (see the counterexample). -/
theorem c2_status_transitions (ops : List Op) (s : Store) (hg : GuardedRun s ops)
    (k : Nat) (r : Reminder) (hk : s.reminders[k]? = some r) :
    ∃ r' : Reminder, (runOps s ops).reminders[k]? = some r' ∧
      r'.id = r.id ∧ r'.trigger_at = r.trigger_at ∧
      StepStar r.status r'.status ∧
      ((∀ j, Op.cancel j ∈ ops → j ≠ r.id) → r.status = .pending → r.trigger_at = none →
        r'.status = .pending) := by
  induction ops generalizing s r with
  | nil => exact ⟨r, hk, rfl, rfl, stepStar_refl _, fun _ hp _ => hp⟩
  | cons op ops ih =>
    obtain ⟨hok, hg'⟩ := hg
    have hklt : k < s.reminders.length := (List.getElem?_eq_some_iff.mp hk).1
    cases op with
    | add m t c ch =>
      have hk1 : (applyOp s (.add m t c ch)).reminders[k]? = some r := by
        show (s.reminders ++ _)[k]? = some r
        rw [List.getElem?_append_left hklt]
        exact hk
      obtain ⟨r', h1, h2, h3, h4, h5⟩ := ih _ hg' r hk1
      exact ⟨r', h1, h2, h3, h4,
        fun hnc hp ht => h5 (fun j hj => hnc j (List.mem_cons_of_mem _ hj)) hp ht⟩
    | complete i =>
      by_cases hid : r.id = i
      · have hguard := hok r (List.getElem?_mem hk) hid
        have hk1 : (applyOp s (.complete i)).reminders[k]? =
            some { r with status := .completed } := by
          show (s.reminders.map _)[k]? = _
          rw [List.getElem?_map, hk]
          simp [hid]
        obtain ⟨r', h1, h2, h3, h4, h5⟩ := ih _ hg' _ hk1
        refine ⟨r', h1, h2, h3, ?_, ?_⟩
        · exact stepStar_trans (Or.inr ⟨hguard.1, by simp⟩) h4
        · intro hnc hp ht
          exact absurd ht hguard.2
      · have hk1 : (applyOp s (.complete i)).reminders[k]? = some r := by
          show (s.reminders.map _)[k]? = _
          rw [List.getElem?_map, hk]
          simp [hid]
        obtain ⟨r', h1, h2, h3, h4, h5⟩ := ih _ hg' r hk1
        exact ⟨r', h1, h2, h3, h4,
          fun hnc hp ht => h5 (fun j hj => hnc j (List.mem_cons_of_mem _ hj)) hp ht⟩
    | cancel i =>
      by_cases hid : r.id = i
      · have hguard := hok r (List.getElem?_mem hk) hid
        have hk1 : (applyOp s (.cancel i)).reminders[k]? =
            some { r with status := .cancelled } := by
          show (s.reminders.map _)[k]? = _
          rw [List.getElem?_map, hk]
          simp [hid]
        obtain ⟨r', h1, h2, h3, h4, h5⟩ := ih _ hg' _ hk1
        refine ⟨r', h1, h2, h3, ?_, ?_⟩
        · refine stepStar_trans ?_ h4
          cases hs : r.status with
          | pending => exact Or.inr ⟨rfl, by simp⟩
          | completed => exact absurd hs hguard
          | cancelled => exact Or.inl rfl
        · intro hnc hp ht
          exact absurd hid.symm (hnc i (List.mem_cons_self _ _))
      · have hk1 : (applyOp s (.cancel i)).reminders[k]? = some r := by
          show (s.reminders.map _)[k]? = _
          rw [List.getElem?_map, hk]
          simp [hid]
        obtain ⟨r', h1, h2, h3, h4, h5⟩ := ih _ hg' r hk1
        exact ⟨r', h1, h2, h3, h4,
          fun hnc hp ht => h5 (fun j hj => hnc j (List.mem_cons_of_mem _ hj)) hp ht⟩

/-- C2 witness: a guarded run completing the due pending reminder 1. -/
theorem c2_status_transitions_witness :
    ∃ r' : Reminder,
      (runOps ⟨[⟨1, "m", some 5, none, "n", RStatus.pending⟩], 2⟩ [Op.complete 1]).reminders[0]? =
        some r' ∧
      r'.id = 1 ∧ r'.trigger_at = some 5 ∧
      StepStar RStatus.pending r'.status ∧
      ((∀ j, Op.cancel j ∈ [Op.complete 1] → j ≠ 1) → RStatus.pending = RStatus.pending →
        (some 5 : Option Int) = none → r'.status = RStatus.pending) :=
  c2_status_transitions [Op.complete 1] ⟨[⟨1, "m", some 5, none, "n", RStatus.pending⟩], 2⟩
    (by refine ⟨?_, trivial⟩; simp only [okOp]; decide) 0 ⟨1, "m", some 5, none, "n", RStatus.pending⟩ rfl

/-- C5 counterexample: `unregister` on the unknown name "ghost" does not
throw — it returns `false` with the registry unchanged (trigger-service.js
lines 214-218), contradicting the claim that every listed operation
(including `unregister`) throws an error naming the missing job. -/
theorem c5_unregister_no_throw_counterexample :
    TS.unregister "ghost" ⟨[], false⟩ = (Except.ok false, ⟨[], false⟩) := rfl

/-- C5 (amended): `cancelReminder` on a non-existent or already-cancelled id
leaves the store unchanged, and never alters a reminder with a different id;
`stop`, `startJob`, `trigger` and `updateInterval` on an unregistered name
throw `Job "name" not found`, while `unregister` returns `false` without
throwing. -/
theorem c5_missing_entity (i : Nat) (name : String) (st : SM) (ts : TS) :
    ((∀ r ∈ st.store.reminders, r.id = i → r.status = .cancelled) →
      (SM.cancelReminder i st).store.reminders = st.store.reminders) ∧
    (∀ (k : Nat) (r : Reminder), st.store.reminders[k]? = some r → r.id ≠ i →
      (SM.cancelReminder i st).store.reminders[k]? = some r) ∧
    (ts.findJob name = none →
      TS.stop name ts = (.error ("Job \"" ++ name ++ "\" not found"), ts) ∧
      (∀ imm, TS.startJob name imm ts = (.error ("Job \"" ++ name ++ "\" not found"), ts)) ∧
      (∀ out t e, TS.trigger out t e name ts = (.error ("Job \"" ++ name ++ "\" not found"), ts)) ∧
      (∀ niv, TS.updateInterval name niv ts = (.error ("Job \"" ++ name ++ "\" not found"), ts)) ∧
      TS.unregister name ts = (.ok false, ts)) := by
  refine ⟨fun h => ?_, fun k r hk hne => ?_, fun h => ?_⟩
  · show st.store.reminders.map _ = _
    rw [List.map_congr_left (g := fun r => r), List.map_id']
    intro r hr
    by_cases hid : r.id = i
    · have hc := h r hr hid
      rw [if_pos hid]
      cases r
      simp only [Reminder.mk.injEq]
      simp_all
    · rw [if_neg hid]
  · show (st.store.reminders.map _)[k]? = _
    rw [List.getElem?_map, hk]
    simp [hne]
  · exact ⟨by simp [TS.stop, h], fun imm => by simp [TS.startJob, h],
      fun out t e => by simp [TS.trigger, h], fun niv => by simp [TS.updateInterval, h],
      by simp [TS.unregister, h]⟩

/-- C5 witness: cancelling the already-cancelled id 1 and the non-existent
id 7 are no-ops, and each trigger-service operation on the unknown name
"ghost" behaves as amended. -/
theorem c5_missing_entity_witness :
    (SM.cancelReminder 1
        ⟨⟨[⟨1, "a", some 0, none, "n", RStatus.cancelled⟩,
           ⟨2, "b", some 5, none, "n", RStatus.pending⟩], 3⟩, [], false⟩).store.reminders =
      [⟨1, "a", some 0, none, "n", RStatus.cancelled⟩,
       ⟨2, "b", some 5, none, "n", RStatus.pending⟩] ∧
    (SM.cancelReminder 7
        ⟨⟨[⟨1, "a", some 0, none, "n", RStatus.cancelled⟩,
           ⟨2, "b", some 5, none, "n", RStatus.pending⟩], 3⟩, [], false⟩).store.reminders =
      [⟨1, "a", some 0, none, "n", RStatus.cancelled⟩,
       ⟨2, "b", some 5, none, "n", RStatus.pending⟩] ∧
    TS.stop "ghost" ⟨[], false⟩ = (.error "Job \"ghost\" not found", ⟨[], false⟩) ∧
    TS.startJob "ghost" true ⟨[], false⟩ = (.error "Job \"ghost\" not found", ⟨[], false⟩) ∧
    TS.trigger .success 0 1 "ghost" ⟨[], false⟩ = (.error "Job \"ghost\" not found", ⟨[], false⟩) ∧
    TS.updateInterval "ghost" (some 5) ⟨[], false⟩ = (.error "Job \"ghost\" not found", ⟨[], false⟩) := by
  have h1 := (c5_missing_entity 1 "ghost"
    ⟨⟨[⟨1, "a", some 0, none, "n", RStatus.cancelled⟩,
       ⟨2, "b", some 5, none, "n", RStatus.pending⟩], 3⟩, [], false⟩ ⟨[], false⟩).1 (by decide)
  have h7 := (c5_missing_entity 7 "ghost"
    ⟨⟨[⟨1, "a", some 0, none, "n", RStatus.cancelled⟩,
       ⟨2, "b", some 5, none, "n", RStatus.pending⟩], 3⟩, [], false⟩ ⟨[], false⟩).1 (by decide)
  have h3 := (c5_missing_entity 1 "ghost"
    ⟨Store.empty, [], false⟩ ⟨[], false⟩).2.2 rfl
  exact ⟨h1, h7, h3.1, h3.2.1 true, h3.2.2.1 .success 0 1, h3.2.2.2.1 (some 5)⟩

/-- C9 witness: a job with accumulated `runCount = 7`, `lastRun = 42`,
description "snap" keeps them across stop-then-start. -/
theorem c9_stop_start_roundtrip_witness :
    ∃ st1 st2 j',
      TS.stop "snapshot" ⟨[⟨"snapshot", 60000, 0, "snap", true, true, 7, some 42, some 3, none, 0⟩], true⟩ =
        (.ok (), st1) ∧
      TS.startJob "snapshot" false st1 = (.ok (), st2) ∧
      st2.findJob "snapshot" = some j' ∧
      j'.runCount = 7 ∧ j'.lastRun = some 42 ∧ j'.description = "snap" :=
  c9_stop_start_roundtrip "snapshot" false
    ⟨[⟨"snapshot", 60000, 0, "snap", true, true, 7, some 42, some 3, none, 0⟩], true⟩
    ⟨"snapshot", 60000, 0, "snap", true, true, 7, some 42, some 3, none, 0⟩ (by decide)

/-! ## The field regex decides the amended grammar (claim C3) -/

theorem isNumB_iff (l : List Char) : isNumB l = true ↔ SpecNum l := by
  simp [isNumB, SpecNum, List.all_eq_true]

theorem takeWhile_all (p : Char → Bool) (l : List Char) (h : ∀ c ∈ l, p c = true) :
    l.takeWhile p = l := by
  induction l with
  | nil => rfl
  | cons a as ih =>
    simp only [List.takeWhile_cons, h a (List.mem_cons_self a as), if_true]
    rw [ih (fun c hc => h c (List.mem_cons_of_mem a hc))]

theorem dropWhile_all (p : Char → Bool) (l : List Char) (h : ∀ c ∈ l, p c = true) :
    l.dropWhile p = [] := by
  induction l with
  | nil => rfl
  | cons a as ih =>
    simp only [List.dropWhile_cons, h a (List.mem_cons_self a as), if_true]
    exact ih (fun c hc => h c (List.mem_cons_of_mem a hc))

theorem rangeOK_iff (l : List Char) : rangeOK l = true ↔ SpecRange l := by
  constructor
  · intro h
    simp only [rangeOK, Bool.and_eq_true, Bool.not_eq_true', List.isEmpty_eq_false] at h
    obtain ⟨hne, hrest⟩ := h
    rcases hdw : l.dropWhile Char.isDigit with _ | ⟨c, d2⟩
    · left
      have hl : l.takeWhile Char.isDigit = l := by
        conv_rhs => rw [← List.takeWhile_append_dropWhile (p := Char.isDigit) (l := l)]
        rw [hdw, List.append_nil]
      refine ⟨by rw [← hl]; exact hne, ?_⟩
      intro c hc
      refine List.mem_takeWhile_imp (p := Char.isDigit) (l := l) ?_
      rw [hl]
      exact hc
    · rw [hdw] at hrest
      simp only [Bool.and_eq_true, decide_eq_true_eq] at hrest
      right
      refine ⟨l.takeWhile Char.isDigit, d2, ⟨hne, fun c hc => List.mem_takeWhile_imp hc⟩,
        (isNumB_iff _).mp hrest.2, ?_⟩
      conv_lhs => rw [← List.takeWhile_append_dropWhile (p := Char.isDigit) (l := l)]
      rw [hdw, hrest.1]
  · intro h
    rcases h with ⟨hne, hd⟩ | ⟨a, b, ha, hb, rfl⟩
    · simp only [rangeOK, Bool.and_eq_true, Bool.not_eq_true', List.isEmpty_eq_false]
      rw [takeWhile_all _ _ hd, dropWhile_all _ _ hd]
      exact ⟨hne, rfl⟩
    · simp only [rangeOK, Bool.and_eq_true, Bool.not_eq_true', List.isEmpty_eq_false]
      rw [takeWhile_append_of_all _ _ ha.2 '-' (by decide),
        dropWhile_append_of_all _ _ ha.2 '-' (by decide)]
      refine ⟨ha.1, ?_⟩
      simp [(isNumB_iff _).mpr hb]

theorem stepOK_iff (l : List Char) :
    stepOK l = true ↔
      (l = ['*'] ∨ (∃ n, SpecNum n ∧ l = '*' :: '/' :: n) ∨ SpecNum l ∨
        ∃ m n, SpecNum m ∧ SpecNum n ∧ l = m ++ '/' :: n) := by
  constructor
  · intro h
    cases l with
    | nil => exact absurd h (by decide)
    | cons c rest =>
      by_cases hc : c = '*'
      · subst hc
        simp only [stepOK, eq_self_iff_true, if_true] at h
        cases rest with
        | nil => exact Or.inl rfl
        | cons c2 ds =>
          simp only [Bool.and_eq_true, decide_eq_true_eq] at h
          exact Or.inr (Or.inl ⟨ds, (isNumB_iff _).mp h.2, by rw [h.1]⟩)
      · simp only [stepOK, if_neg hc, Bool.and_eq_true, Bool.not_eq_true',
          List.isEmpty_eq_false] at h
        obtain ⟨hne, hrest⟩ := h
        rcases hdw : (c :: rest).dropWhile Char.isDigit with _ | ⟨c2, d2⟩
        · right; right; left
          have hl : (c :: rest).takeWhile Char.isDigit = c :: rest := by
            conv_rhs => rw [← List.takeWhile_append_dropWhile (p := Char.isDigit) (l := c :: rest)]
            rw [hdw, List.append_nil]
          refine ⟨by simp, fun x hx => List.mem_takeWhile_imp (p := Char.isDigit) (l := c :: rest) ?_⟩
          rw [hl]
          exact hx
        · rw [hdw] at hrest
          simp only [Bool.and_eq_true, decide_eq_true_eq] at hrest
          right; right; right
          refine ⟨(c :: rest).takeWhile Char.isDigit, d2,
            ⟨hne, fun x hx => List.mem_takeWhile_imp hx⟩, (isNumB_iff _).mp hrest.2, ?_⟩
          conv_lhs => rw [← List.takeWhile_append_dropWhile (p := Char.isDigit) (l := c :: rest)]
          rw [hdw, hrest.1]
  · intro h
    rcases h with rfl | ⟨n, hn, rfl⟩ | hnum | ⟨m, n, hm, hn, rfl⟩
    · decide
    · simp only [stepOK, eq_self_iff_true, if_true, Bool.and_eq_true, decide_eq_true_eq]
      exact ⟨trivial, (isNumB_iff _).mpr hn⟩
    · obtain ⟨hne, hd⟩ := hnum
      cases l with
      | nil => exact absurd rfl hne
      | cons c rest =>
        have hcd : c.isDigit = true := hd c (List.mem_cons_self _ _)
        have hcs : c ≠ '*' := by
          intro h'
          subst h'
          exact absurd hcd (by decide)
        simp only [stepOK, if_neg hcs, Bool.and_eq_true, Bool.not_eq_true',
          List.isEmpty_eq_false]
        rw [takeWhile_all _ _ hd, dropWhile_all _ _ hd]
        exact ⟨by simp, rfl⟩
    · rcases m with _ | ⟨d, m'⟩
      · exact absurd rfl hm.1
      · have hdd : d.isDigit = true := hm.2 d (List.mem_cons_self _ _)
        have hds : d ≠ '*' := by
          intro h'
          subst h'
          exact absurd hdd (by decide)
        have ht := takeWhile_append_of_all Char.isDigit (d :: m') hm.2 '/' (by decide) n
        have hdr := dropWhile_append_of_all Char.isDigit (d :: m') hm.2 '/' (by decide) n
        simp only [List.cons_append] at ht hdr ⊢
        simp only [stepOK, if_neg hds, Bool.and_eq_true, Bool.not_eq_true',
          List.isEmpty_eq_false]
        rw [ht, hdr]
        refine ⟨by simp, ?_⟩
        simp [(isNumB_iff _).mpr hn]

theorem splitComma_ne_nil (l : List Char) : splitComma l ≠ [] := by
  cases l with
  | nil => simp [splitComma]
  | cons c cs =>
    simp only [splitComma]
    by_cases hc : c = ','
    · simp [hc]
    · rw [if_neg hc]
      rcases hsc : splitComma cs with _ | ⟨h, t⟩ <;> simp

theorem joinComma_splitComma (l : List Char) : joinComma (splitComma l) = l := by
  induction l with
  | nil => rfl
  | cons c cs ih =>
    by_cases hc : c = ','
    · subst hc
      simp only [splitComma, if_pos rfl]
      rcases hsc : splitComma cs with _ | ⟨h, t⟩
      · exact absurd hsc (splitComma_ne_nil cs)
      · rw [hsc] at ih
        show [] ++ ',' :: joinComma (h :: t) = ',' :: cs
        rw [List.nil_append, ih]
    · simp only [splitComma, if_neg hc]
      rcases hsc : splitComma cs with _ | ⟨h, t⟩
      · exact absurd hsc (splitComma_ne_nil cs)
      · rw [hsc] at ih
        cases t with
        | nil =>
          show c :: h = c :: cs
          simp only [joinComma] at ih
          rw [ih]
        | cons t1 ts =>
          show (c :: h) ++ ',' :: joinComma (t1 :: ts) = c :: cs
          simp only [joinComma] at ih
          rw [List.cons_append, ih]

theorem splitComma_no_comma (l : List Char) (h : ',' ∉ l) : splitComma l = [l] := by
  induction l with
  | nil => rfl
  | cons c cs ih =>
    have hc : c ≠ ',' := by
      intro h'
      subst h'
      exact h (List.mem_cons_self _ _)
    simp only [splitComma, if_neg hc]
    rw [ih (fun h' => h (List.mem_cons_of_mem c h'))]

theorem splitComma_append (a : List Char) (ha : ',' ∉ a) (r : List Char) :
    splitComma (a ++ ',' :: r) = a :: splitComma r := by
  induction a with
  | nil => simp [splitComma]
  | cons c cs ih =>
    have hc : c ≠ ',' := by
      intro h'
      subst h'
      exact ha (List.mem_cons_self _ _)
    simp only [List.cons_append, splitComma, if_neg hc]
    have he : cs.append (',' :: r) = cs ++ ',' :: r := rfl
    rw [he, ih (fun h' => ha (List.mem_cons_of_mem c h'))]

theorem splitComma_joinComma (cs : List (List Char)) (hne : cs ≠ [])
    (hnc : ∀ f ∈ cs, ',' ∉ f) : splitComma (joinComma cs) = cs := by
  induction cs with
  | nil => exact absurd rfl hne
  | cons x xs ih =>
    cases xs with
    | nil =>
      show splitComma x = [x]
      exact splitComma_no_comma x (hnc x (List.mem_cons_self _ _))
    | cons y ys =>
      show splitComma (x ++ ',' :: joinComma (y :: ys)) = x :: y :: ys
      rw [splitComma_append x (hnc x (List.mem_cons_self _ _))]
      rw [ih (by simp) (fun f hf => hnc f (List.mem_cons_of_mem x hf))]

theorem specRange_chars (f : List Char) (h : SpecRange f) :
    ∀ c ∈ f, c.isDigit = true ∨ c = '-' := by
  intro c hc
  rcases h with ⟨_, hd⟩ | ⟨a, b, ha, hb, rfl⟩
  · exact Or.inl (hd c hc)
  · rcases List.mem_append.mp hc with h1 | h1
    · exact Or.inl (ha.2 c h1)
    · rcases List.mem_cons.mp h1 with h2 | h2
      · exact Or.inr h2
      · exact Or.inl (hb.2 c h2)

theorem specRange_no_comma (f : List Char) (h : SpecRange f) : ',' ∉ f := by
  intro hm
  rcases specRange_chars f h ',' hm with h1 | h1
  · exact absurd h1 (by decide)
  · exact absurd h1 (by decide)

theorem joinComma_chars (cs : List (List Char)) (hall : ∀ f ∈ cs, SpecRange f) :
    ∀ c ∈ joinComma cs, c.isDigit = true ∨ c = '-' ∨ c = ',' := by
  induction cs with
  | nil =>
    intro c hc
    simp [joinComma] at hc
  | cons x xs ih =>
    intro c hc
    cases xs with
    | nil =>
      have hx : c ∈ x := hc
      rcases specRange_chars x (hall x (List.mem_cons_self _ _)) c hx with h | h
      · exact Or.inl h
      · exact Or.inr (Or.inl h)
    | cons y ys =>
      have hc' : c ∈ x ++ ',' :: joinComma (y :: ys) := hc
      rcases List.mem_append.mp hc' with h1 | h1
      · rcases specRange_chars x (hall x (List.mem_cons_self _ _)) c h1 with h | h
        · exact Or.inl h
        · exact Or.inr (Or.inl h)
      · rcases List.mem_cons.mp h1 with h2 | h2
        · exact Or.inr (Or.inr h2)
        · exact ih (fun f hf => hall f (List.mem_cons_of_mem x hf)) c h2

theorem listOK_iff (l : List Char) : listOK l = true ↔ SpecCommaList l := by
  constructor
  · intro h
    refine ⟨splitComma l, splitComma_ne_nil l, ?_, (joinComma_splitComma l).symm⟩
    intro f hf
    exact (rangeOK_iff f).mp (List.all_eq_true.mp h f hf)
  · rintro ⟨cs, hne, hall, rfl⟩
    have hnc : ∀ f ∈ cs, ',' ∉ f := fun f hf => specRange_no_comma f (hall f hf)
    unfold listOK
    rw [splitComma_joinComma cs hne hnc]
    exact List.all_eq_true.mpr (fun f hf => (rangeOK_iff f).mpr (hall f hf))

theorem fieldOK_iff (l : List Char) : fieldOK l = true ↔ AmendedField l := by
  simp only [fieldOK, Bool.or_eq_true, decide_eq_true_eq, stepOK_iff, listOK_iff]
  unfold AmendedField ClaimField
  constructor
  · rintro ((h | h) | h)
    · exact Or.inl (Or.inl h)
    · rcases h with h | h | h | h
      · exact Or.inl (Or.inl h)
      · exact Or.inl (Or.inr (Or.inr (Or.inl h)))
      · exact Or.inl (Or.inr (Or.inl h))
      · exact Or.inr h
    · exact Or.inl (Or.inr (Or.inr (Or.inr h)))
  · rintro (h | h)
    · rcases h with h | h | h | h
      · exact Or.inl (Or.inl h)
      · exact Or.inl (Or.inr (Or.inr (Or.inr (Or.inl h))))
      · exact Or.inl (Or.inr (Or.inr (Or.inl h)))
      · exact Or.inr h
    · exact Or.inl (Or.inr (Or.inr (Or.inr (Or.inr h))))

/-- C3 counterexample: on `"5/2 * * * *"` the code returns true, but the
field `"5/2"` is not `*`, not a number, not a `*/N` step and not a comma
list of numbers/ranges, so the claimed equivalence fails at this input
(the source regex also accepts steps with a numeric base). -/
theorem c3_claim_counterexample :
    ¬ (isValidCron "5/2 * * * *" = true ↔
        ((wsSplit ("5/2 * * * *").toList).length = 5 ∧
          ∀ f ∈ wsSplit ("5/2 * * * *").toList, ClaimField f)) := by
  intro hiff
  have h := (hiff.mp (by decide)).2 ('5' :: '/' :: '2' :: []) (by decide)
  rcases h with h | h | ⟨n, hn, h⟩ | h
  · exact absurd h (by decide)
  · exact absurd (h.2 '/' (by decide)) (by decide)
  · injection h with h1 h2
    exact absurd h1 (by decide)
  · obtain ⟨cs, hcne, hall, hj⟩ := h
    have h2 := joinComma_chars cs hall '/' (by rw [← hj]; decide)
    rcases h2 with h2 | h2 | h2 <;> exact absurd h2 (by decide)

/-- C3 (amended): `isValidCron e` is true iff `e` splits into exactly 5
whitespace-separated fields, each of which is `*`, a number, a step whose
base is `*` or a number (`*/N` or `N/M`), or a comma-separated list of
numbers and numeric ranges; the check is purely syntactic (minute 99
passes) and a 3-field string is rejected. -/
theorem c3_isValidCron_amended :
    (∀ s : String, isValidCron s = true ↔
      ((wsSplit s.toList).length = 5 ∧ ∀ f ∈ wsSplit s.toList, AmendedField f)) ∧
    isValidCron "99 * * * *" = true ∧
    isValidCron "* * *" = false := by
  refine ⟨fun s => ?_, by decide, by decide⟩
  simp only [isValidCron, Bool.and_eq_true, decide_eq_true_eq, List.all_eq_true, fieldOK_iff]

/-- C3 witness: the amended equivalence evaluated on `"*/5 0 1,2-3 * 99"`. -/
theorem c3_isValidCron_amended_witness :
    (wsSplit ("*/5 0 1,2-3 * 99").toList).length = 5 ∧
    (∀ f ∈ wsSplit ("*/5 0 1,2-3 * 99").toList, AmendedField f) :=
  (c3_isValidCron_amended.1 "*/5 0 1,2-3 * 99").mp (by decide)
